import Mathlib

/-
Verification of the job-queueing, scheduling, stale-recovery and
group-completion subsystem of the GreptileClone repository.

The embedding models:
  - the shared Vercel KV store as an association list from structured keys
    to values (the store's documented automatic JSON (de)serialization means
    a job record written with JSON.stringify round-trips to an object, while
    a marker written as a bare string such as "completed" round-trips to a
    plain string);
  - the scheduler route (GET), the enqueue route (POST / queueGroupedJobs)
    and the retry-fetch primitives as pure functions over that store, with
    the external collaborators (content generation, repository metadata,
    clock, fresh ids) passed in as explicit oracles.
-/

set_option autoImplicit false

namespace GreptileClone

/-- File descriptor as produced by fetchFiles: a path and a fetch locator. -/
structure FileInfo where
  path : String
  download_url : String
  deriving Repr, DecidableEq

/-- Job record, mirroring the fields written by queueGroupedJobs and mutated by
saveJobWithStatus and processJob (id, file, groupId, status, result, owner,
repo, createdAt, updatedAt). -/
structure Job where
  id : String
  file : FileInfo
  groupId : String
  status : String
  result : Option String
  owner : String
  repo : String
  createdAt : Nat
  updatedAt : Nat
  deriving Repr, DecidableEq

/-- Keys of the shared KV store. The source uses string keys of the shapes
"job:<id>", "group:<groupId>:<sub>" (where sub is a job id, or the literal
"status" written by finalizeGroup) and "<owner>/<repo>:<path>:metadata".
Group ids and job ids are uuids and owner/repo are GitHub coordinates, so the
three shapes never collide and the scan patterns "job:*" and
"group:<groupId>:*" select exactly the corresponding constructors. -/
inductive KKey where
  | jobK (id : String)
  | groupK (g : String) (sub : String)
  | metaK (repoKey : String) (path : String)
  deriving Repr, DecidableEq

/-- Values of the shared KV store after the client's automatic
deserialization: a plain string (membership markers), a job record
(written as JSON by queueJob and saveJobWithStatus), or a stored commit
fingerprint of which only the sha field is ever consulted. -/
inductive KVal where
  | str (s : String)
  | job (j : Job)
  | commit (sha : String)
  deriving Repr, DecidableEq

/-- The shared KV store: an association list of key/value entries.
Scans enumerate entries in list order; reads return the first match. -/
abbrev KV := List (KKey × KVal)

/-- kv.get: first entry with the given key, if any. -/
def kvGet : KV → KKey → Option KVal
  | [], _ => none
  | e :: rest, k => if e.1 = k then some e.2 else kvGet rest k

/-- kv.set: overwrite the first entry with the given key in place, or append
a fresh entry (last-write-wins full-value overwrite of one key). -/
def kvSet : KV → KKey → KVal → KV
  | [], k, v => [(k, v)]
  | e :: rest, k, v => if e.1 = k then (k, v) :: rest else e :: kvSet rest k v

/-- The keys currently present in the store, in scan order. -/
def kvKeys (s : KV) : List KKey := s.map (·.1)

/-- Scan predicate for the pattern "job:*". -/
def matchesJobPat : KKey → Bool
  | .jobK _ => true
  | _ => false

/-- Scan predicate for the pattern "group:<g>:*". The reserved
"group:<g>:status" key written by finalizeGroup matches this pattern too. -/
def matchesGroupPat (g : String) : KKey → Bool
  | .groupK g2 _ => g2 == g
  | _ => false

theorem kvGet_kvSet_self (s : KV) (k : KKey) (v : KVal) :
    kvGet (kvSet s k v) k = some v := by
  induction s with
  | nil => simp [kvSet, kvGet]
  | cons e rest ih =>
    by_cases h : e.1 = k
    · simp [kvSet, h, kvGet]
    · simp [kvSet, h, kvGet, ih]

theorem kvGet_kvSet_ne (s : KV) (k k2 : KKey) (v : KVal) (h : k2 ≠ k) :
    kvGet (kvSet s k v) k2 = kvGet s k2 := by
  induction s with
  | nil => simp [kvSet, kvGet, h.symm]
  | cons e rest ih =>
    by_cases he : e.1 = k
    · have hne : ¬(k = k2) := fun hh => h hh.symm
      have hne2 : ¬(e.1 = k2) := fun hh => hne (he.symm.trans hh)
      simp [kvSet, he, kvGet, hne, hne2]
    · by_cases he2 : e.1 = k2
      · simp [kvSet, he, kvGet, he2, h]
      · simp [kvSet, he, kvGet, he2, ih]

theorem kvKeys_cons (e : KKey × KVal) (rest : KV) :
    kvKeys (e :: rest) = e.1 :: kvKeys rest := rfl

theorem kvKeys_kvSet_of_mem (s : KV) (k : KKey) (v : KVal) (h : k ∈ kvKeys s) :
    kvKeys (kvSet s k v) = kvKeys s := by
  induction s with
  | nil => simp [kvKeys] at h
  | cons e rest ih =>
    by_cases he : e.1 = k
    · simp [kvSet, he, kvKeys]
    · have hrest : k ∈ kvKeys rest := by
        rw [kvKeys_cons, List.mem_cons] at h
        rcases h with h1 | h1
        · exact absurd h1.symm he
        · exact h1
      simp only [kvSet, if_neg he, kvKeys_cons]
      exact congrArg (e.1 :: ·) (ih hrest)

theorem kvKeys_kvSet_of_not_mem (s : KV) (k : KKey) (v : KVal) (h : k ∉ kvKeys s) :
    kvKeys (kvSet s k v) = kvKeys s ++ [k] := by
  induction s with
  | nil => simp [kvSet, kvKeys]
  | cons e rest ih =>
    rw [kvKeys_cons] at h
    by_cases he : e.1 = k
    · exact absurd (he ▸ List.mem_cons_self e.1 (kvKeys rest)) h
    · have hrest : k ∉ kvKeys rest := fun hm => h (List.mem_cons_of_mem _ hm)
      simp only [kvSet, if_neg he, kvKeys_cons, List.cons_append]
      exact congrArg (e.1 :: ·) (ih hrest)

theorem mem_kvSet_self (s : KV) (k : KKey) (v : KVal) : (k, v) ∈ kvSet s k v := by
  induction s with
  | nil => simp [kvSet]
  | cons e rest ih =>
    by_cases he : e.1 = k
    · simp [kvSet, he]
    · simp only [kvSet, if_neg he]
      exact List.mem_cons_of_mem _ ih

theorem mem_of_kvGet (s : KV) (k : KKey) (v : KVal) (h : kvGet s k = some v) :
    (k, v) ∈ s := by
  induction s with
  | nil => simp [kvGet] at h
  | cons e rest ih =>
    by_cases he : e.1 = k
    · rw [kvGet, if_pos he] at h
      injection h with h2
      subst he
      subst h2
      exact List.mem_cons_self _ _
    · rw [kvGet, if_neg he] at h
      exact List.mem_cons_of_mem _ (ih h)

theorem mem_kvKeys_of_mem (s : KV) (e : KKey × KVal) (h : e ∈ s) :
    e.1 ∈ kvKeys s := List.mem_map_of_mem (·.1) h

theorem mem_kvKeys_kvSet_of_mem (s : KV) (k k2 : KKey) (v : KVal)
    (h : k2 ∈ kvKeys s) : k2 ∈ kvKeys (kvSet s k v) := by
  by_cases hm : k ∈ kvKeys s
  · rwa [kvKeys_kvSet_of_mem s k v hm]
  · rw [kvKeys_kvSet_of_not_mem s k v hm]
    exact List.mem_append_left _ h

/-- Outcome of a retry loop: the final result (ok payload or the error thrown
after exhausting attempts), the number of fetch attempts actually made, and
the list of backoff delays (in ms) slept between consecutive attempts. -/
structure RetryOutcome (α : Type) where
  result : Except String α
  attempts : Nat
  delays : List Nat
  deriving Repr

/-- Shared body of the retry loops of downloadFile and fetchFile (lib,
part_000): for attempt = 1..5, try the request (the oracle gives each
attempt's outcome); on success return; on failure, if attempt = 5 throw the
exhaustion error, else sleep 1000 * 2 ^ attempt ms and continue. The fuel
argument counts the loop iterations left (5 at entry, so the fallback for a
fallen-through loop — fetchFile's final return of an empty string — is
unreachable). -/
def retryGo {α : Type} (oracle : Nat → Except String α) (failMsg : String)
    (fallback : α) : Nat → Nat → RetryOutcome α
  | _, 0 => ⟨Except.ok fallback, 0, []⟩
  | attempt, fuel + 1 =>
    match oracle attempt with
    | Except.ok data => ⟨Except.ok data, 1, []⟩
    | Except.error _ =>
      if attempt = 5 then ⟨Except.error failMsg, 1, []⟩
      else
        let rest := retryGo oracle failMsg fallback (attempt + 1) fuel
        ⟨rest.result, rest.attempts + 1, 1000 * 2 ^ attempt :: rest.delays⟩

/-- fetchFile (part_000 lines 44-74): text-returning flavor of the retry
primitive. The unconditional 750 ms sleep before the loop precedes attempt 1
and is not an inter-attempt delay, so it is not part of the trace. -/
def fetchFile (oracle : Nat → Except String String) (url : String) :
    RetryOutcome String :=
  retryGo oracle ("Failed to fetch file after 5 attempts: " ++ url) "" 1 5

/-- downloadFile (part_000 lines 10-42): byte-persisting flavor of the retry
primitive; returns nothing on success. -/
def downloadFile (oracle : Nat → Except String Unit) (url : String) :
    RetryOutcome Unit :=
  retryGo oracle ("Failed to download file after 5 attempts: " ++ url) () 1 5

/-- Splits a character list on a separator, mirroring String.splitOn for a
one-character separator (written structurally so it evaluates in the kernel). -/
def splitCharList (sep : Char) : List Char → List (List Char)
  | [] => [[]]
  | c :: rest =>
    let r := splitCharList sep rest
    if c = sep then [] :: r
    else
      match r with
      | [] => [[c]]
      | g :: gs => (c :: g) :: gs

/-- ASCII lower-casing of one character, as toLowerCase acts on extensions. -/
def lowerChar (c : Char) : Char :=
  if 'A' ≤ c ∧ c ≤ 'Z' then Char.ofNat (c.toNat + 32) else c

/-- ASCII lower-casing of a string. -/
def lowerStr (s : String) : String := ⟨s.data.map lowerChar⟩

/-- Model of node's path.extname restricted to "/"-separated paths: the
substring of the basename from its last dot, or "" when the basename has no
dot, only a leading dot, or is "..". -/
def extname (p : String) : String :=
  let base := (splitCharList '/' p.data).getLastD []
  if base = ['.', '.'] then ""
  else
    match splitCharList '.' base with
    | [] => ""
    | [_] => ""
    | first :: rest =>
      if first = [] ∧ rest.length = 1 then ""
      else ⟨'.' :: rest.getLastD []⟩

/-- getFileType (part_000 lines 177-227): extension-based classification.
Media covers images, video and fonts; everything else that is not a known
source/data/markup/style/docs extension is Unknown. -/
def getFileType (file : String) : String :=
  let ext := lowerStr (extname file)
  if ext = ".js" ∨ ext = ".jsx" ∨ ext = ".ts" ∨ ext = ".tsx" then
    "JavaScript/TypeScript"
  else if ext = ".json" then "JSON"
  else if ext = ".html" then "HTML"
  else if ext = ".css" then "CSS"
  else if ext = ".md" then "Markdown"
  else if ext = ".mp4" ∨ ext = ".avi" ∨ ext = ".mov" ∨ ext = ".wmv" ∨
      ext = ".gif" ∨ ext = ".png" ∨ ext = ".jpg" ∨ ext = ".jpeg" ∨
      ext = ".tiff" ∨ ext = ".svg" ∨ ext = ".bmp" ∨ ext = ".webp" ∨
      ext = ".ico" ∨ ext = ".webm" ∨ ext = ".ttf" ∨ ext = ".otf" ∨
      ext = ".woff" ∨ ext = ".woff2" then "Media"
  else "Unknown"

example : getFileType "a.js" = "JavaScript/TypeScript" := by decide
example : getFileType "b.png" = "Media" := by decide
example : getFileType "dir/c.json" = "JSON" := by decide
example : getFileType "README.md" = "Markdown" := by decide
example : getFileType "x/y/logo.SVG" = "Media" := by decide
example : getFileType "Makefile" = "Unknown" := by decide

/-- The status property of a scanned value. Job records have a status field;
reading the status property of a plain marker string yields undefined (none),
which is what the runtime destructure in checkGroupCompletion and the status
filters in the scheduler observe. -/
def statusOf : KVal → Option String
  | .job j => some j.status
  | _ => none

/-- The updatedAt sort key of a scanned value. Marker strings have no
updatedAt (the numeric comparator sees NaN and the sort leaves their relative
order alone); they are keyed 0 here, and only permutation-invariant facts are
used about scans that can contain them. -/
def uaKey : KVal → Nat
  | .job j => j.updatedAt
  | _ => 0

/-- Comparator of the getJobs sort: ascending updatedAt. -/
def uaLe (a b : KVal) : Prop := uaKey a ≤ uaKey b

instance : DecidableRel uaLe := fun a b => Nat.decLe (uaKey a) (uaKey b)

instance : IsTotal KVal uaLe := ⟨fun a b => Nat.le_total (uaKey a) (uaKey b)⟩

instance : IsTrans KVal uaLe := ⟨fun _ _ _ h1 h2 => Nat.le_trans h1 h2⟩

/-- getJobs (part_002 lines 81-95): scan the store for keys matching the
pattern, read every value, and stably sort ascending by updatedAt (the
runtime sort with the numeric comparator is a stable ascending sort). The
null-coalescing to an empty object and the truthiness filter of the source
are identities here: every scanned key has a value and every value is
truthy. -/
def getJobs (s : KV) (pat : KKey → Bool) : List KVal :=
  List.insertionSort uaLe ((s.filter fun e => pat e.1).map (·.2))

/-- filterForStaleJobs (part_002 lines 97-104): keeps jobs whose updatedAt is
more than staleTime ms in the past. Truncated Nat subtraction agrees with the
runtime comparison also for future timestamps (both sides then fail the
strict test). -/
def filterForStaleJobs (jobs : List KVal) (staleTime : Nat) (now : Nat) :
    List KVal :=
  jobs.filter fun v =>
    match v with
    | KVal.job j => decide (now - j.updatedAt > staleTime)
    | _ => false

/-- saveJobWithStatus (part_002 lines 131-139): mutate the record's status,
refresh updatedAt, and overwrite the job key; returns the mutated record as
the callers observe it. -/
def saveJobWithStatus (s : KV) (j : Job) (status : String) (now : Nat) :
    Job × KV :=
  let j2 := { j with status := status, updatedAt := now }
  (j2, kvSet s (KKey.jobK j2.id) (KVal.job j2))

/-- handleJobFailure (part_002 lines 141-145): record the job as failed and
set its group membership marker to the string "failed". -/
def handleJobFailure (s : KV) (j : Job) (now : Nat) : KV :=
  let r := saveJobWithStatus s j "failed" now
  kvSet r.2 (KKey.groupK j.groupId j.id) (KVal.str "failed")

/-- Object.fromEntries: later entries overwrite earlier ones (last wins). -/
def fromEntries {α : Type} (l : List (String × α)) : String → Option α :=
  l.foldl (fun m e => fun k => if k = e.1 then some e.2 else m k) fun _ => none

/-- assembleDocument (part_002 lines 147-161): one entry per job mapping the
job's file path to its result, then one "metadata" entry appended last with
the stringified repository metadata (passed in as an oracle, as the fetch is
external); Object.fromEntries applies last-wins. An empty job list yields the
empty document. -/
def assembleDocument (jobs : List Job) (metadataStr : String) :
    String → Option (Option String) :=
  match jobs with
  | [] => fun _ => none
  | _ =>
    let entries := (jobs.map fun j => (j.file.path, j.result)) ++
      [("metadata", some metadataStr)]
    fromEntries entries

/-- checkGroupCompletion (part_002 lines 163-169): scan every entry under the
group's marker pattern and test whether each value's status property reads
"completed". The scanned values are the marker strings themselves, so the
status property read is undefined (statusOf gives none) on every marker. -/
def checkGroupCompletion (s : KV) (g : String) : Bool :=
  (getJobs s (matchesGroupPat g)).all fun v => statusOf v == some "completed"

/-- Helper for the runtime behavior of assembleDocument's map over the group
scan: it only proceeds when every scanned value is a full job record,
otherwise reading the file property of a marker string throws. -/
def allJobs : List KVal → Option (List Job)
  | [] => some []
  | v :: rest =>
    match v with
    | KVal.job j => (allJobs rest).map fun l => j :: l
    | _ => none

/-- finalizeGroup (part_002 lines 171-181). The group scan returns membership
marker values, which in every store this system writes are plain strings; the
destructure of owner and repo from the first value then yields undefined and
getASTFilename throws a TypeError before anything is written, and even with a
record first, assembleDocument throws on a marker string in the list. The
success path (reachable only when every scanned group value is a full job
record) assembles the document, hands it to the external artifact store, and
writes the reserved group status key. Errors propagate to the caller. -/
def finalizeGroup (s : KV) (g : String) (metadataStr : String) :
    Except String (KV × (String → Option (Option String))) :=
  let markers := getJobs s (matchesGroupPat g)
  match markers with
  | [] => Except.error "TypeError: cannot destructure owner of undefined"
  | v0 :: _ =>
    match v0 with
    | KVal.job _ =>
      match allJobs markers with
      | some jobs =>
        Except.ok
          (kvSet s (KKey.groupK g "status") (KVal.str "completed"),
            assembleDocument jobs metadataStr)
      | none => Except.error "TypeError: cannot read path of undefined"
    | _ => Except.error "TypeError: cannot read replaceAll of undefined"

/-- processJob (part_002 lines 113-129): mark in-progress, run the
content-generation collaborator (the gen oracle stands for processFile), on
success mark completed, set the group marker to "completed" and run the
completion barrier; any error — from the collaborator or from finalization —
is caught and absorbed by handleJobFailure, so processJob never throws to the
scheduler (it is a total function into the store). -/
def processJob (s : KV) (j : Job) (gen : FileInfo → Except String String)
    (metadataStr : String) (now : Nat) : KV :=
  let r1 := saveJobWithStatus s j "in-progress" now
  match gen j.file with
  | Except.error _ => handleJobFailure r1.2 r1.1 now
  | Except.ok res =>
    let j2 := { r1.1 with result := some res }
    let r2 := saveJobWithStatus r1.2 j2 "completed" now
    let s3 := kvSet r2.2 (KKey.groupK j.groupId j.id) (KVal.str "completed")
    if checkGroupCompletion s3 j.groupId then
      match finalizeGroup s3 j.groupId metadataStr with
      | Except.ok (s4, _) => s4
      | Except.error _ => handleJobFailure s3 r2.1 now
    else s3

/-- One scheduled batch element. A scheduled batch only ever holds job
records (the status filters admit nothing else); other values are no-ops. -/
def processJobKVal (s : KV) (v : KVal) (gen : FileInfo → Except String String)
    (metadataStr : String) (now : Nat) : KV :=
  match v with
  | KVal.job j => processJob s j gen metadataStr now
  | _ => s

/-- processJobs (part_002 lines 106-111): slice the first
min(length, limit) jobs and execute them; the concurrent Promise.all is
modeled as sequential composition (each execution writes only its own job's
keys, see the frame lemmas). -/
def processJobs (s : KV) (jobs : List KVal) (limit : Nat)
    (gen : FileInfo → Except String String) (metadataStr : String)
    (now : Nat) : KV :=
  (jobs.take (min jobs.length limit)).foldl
    (fun st v => processJobKVal st v gen metadataStr now) s

/-- The staleness threshold of the scheduler: 60_000 * 6 ms. -/
def staleThreshold : Nat := 60000 * 6

/-- The stale in-progress jobs a scheduling pass computes (part_002 lines
54-58): in-progress job records whose updatedAt is older than 6 minutes. -/
def staleOf (s : KV) (now : Nat) : List KVal :=
  filterForStaleJobs
    ((getJobs s matchesJobPat).filter fun v => statusOf v == some "in-progress")
    staleThreshold now

/-- The batch a scheduling pass hands to processJobs (before the concurrency
cap): the stale in-progress jobs if any exist, else the queued jobs. -/
def scheduledBatch (s : KV) (now : Nat) : List KVal :=
  if (staleOf s now).length > 0 then staleOf s now
  else (getJobs s matchesJobPat).filter fun v => statusOf v == some "queued"

/-- The scheduler pass (GET, part_002 lines 45-79, after the auth check):
list all jobs, reclaim stale in-progress jobs with priority, otherwise
process queued jobs, with the 50-job concurrency cap. -/
def schedulerPass (s : KV) (gen : FileInfo → Except String String)
    (metadataStr : String) (now : Nat) : KV :=
  if (staleOf s now).length > 0 then
    processJobs s (staleOf s now) 50 gen metadataStr now
  else if ((getJobs s matchesJobPat).filter fun v =>
      statusOf v == some "queued").length > 0 then
    processJobs s ((getJobs s matchesJobPat).filter fun v =>
      statusOf v == some "queued") 50 gen metadataStr now
  else s

/-- The sha property of a stored fingerprint value, as read by
queueGroupedJobs: undefined (none) when the store had no entry (the runtime
then substitutes an empty object) or a value of another shape. -/
def shaOf : Option KVal → Option String
  | some (KVal.commit sha) => some sha
  | _ => none

/-- getFileMetadata (part_002 lines 487-493): read the stored fingerprint for
(repoKey, file). The runtime replaces a missing value by an empty object;
only the sha property is ever consulted, via shaOf. -/
def getFileMetadata (s : KV) (repoKey file : String) : Option KVal :=
  kvGet s (KKey.metaK repoKey file)

/-- storeFileMetadata (part_002 lines 477-485): overwrite the stored
fingerprint for (repoKey, file); only the sha field of the stored commit
object is ever consulted, so the model keeps just that. -/
def storeFileMetadata (s : KV) (repoKey file sha : String) : KV :=
  kvSet s (KKey.metaK repoKey file) (KVal.commit sha)

/-- queueJob (part_002 lines 456-461): persist the job record and its group
membership marker (initially the string "queued"). -/
def queueJob (s : KV) (j : Job) : KV :=
  kvSet (kvSet s (KKey.jobK j.id) (KVal.job j))
    (KKey.groupK j.groupId j.id) (KVal.str "queued")

/-- Result of one enqueue call: the fresh group id, the jobs created in
order, and the resulting store. -/
structure EnqueueResult where
  groupId : String
  jobs : List Job
  store : KV

/-- Loop body of queueGroupedJobs for one file: compare the latest
fingerprint (the latestSha oracle stands for fetchGitHubCommits(...)[0].sha)
with the stored one; when absent or different, create the queued job with a
fresh id (the newId oracle), persist it with its marker, and overwrite the
stored fingerprint. Files whose fingerprint is unchanged produce nothing. -/
def enqueueStep (owner repo : String) (latestSha : String → String)
    (groupId : String) (newId : String → String) (now : Nat)
    (acc : List Job × KV) (f : FileInfo) : List Job × KV :=
  let repoKey := owner ++ "/" ++ repo
  let stored := getFileMetadata acc.2 repoKey f.path
  if shaOf stored ≠ some (latestSha f.path) then
    let job : Job :=
      { id := newId f.path, file := f, groupId := groupId,
        status := "queued", result := none, owner := owner, repo := repo,
        createdAt := now, updatedAt := now }
    let s1 := queueJob acc.2 job
    let s2 := storeFileMetadata s1 repoKey f.path (latestSha f.path)
    (acc.1 ++ [job], s2)
  else acc

/-- queueGroupedJobs (part_002 lines 422-454): filter out Media files, then
run enqueueStep over the remaining files, returning the fresh group id, the
created jobs and the updated store. -/
def queueGroupedJobs (s : KV) (owner repo : String) (files : List FileInfo)
    (latestSha : String → String) (groupId : String) (newId : String → String)
    (now : Nat) : EnqueueResult :=
  let files2 := files.filter fun f => getFileType f.path ≠ "Media"
  let r := files2.foldl (enqueueStep owner repo latestSha groupId newId now)
    ([], s)
  ⟨groupId, r.1, r.2⟩

theorem retryGo_attempts_le {α : Type} (oracle : Nat → Except String α)
    (msg : String) (fb : α) :
    ∀ (fuel attempt : Nat), (retryGo oracle msg fb attempt fuel).attempts ≤ fuel := by
  intro fuel
  induction fuel with
  | zero => intro attempt; simp [retryGo]
  | succ f ih =>
    intro attempt
    cases h : oracle attempt with
    | ok d => simp [retryGo, h]
    | error e =>
      by_cases h5 : attempt = 5
      · subst h5
        simp [retryGo, h]
      · simp only [retryGo, h, h5, if_false]
        exact Nat.succ_le_succ (ih (attempt + 1))

theorem exists_error_of_isOk_false {α : Type} (x : Except String α)
    (h : x.isOk = false) : ∃ e, x = Except.error e := by
  cases x with
  | error e => exact ⟨e, rfl⟩
  | ok a => simp [Except.isOk, Except.toBool] at h

/-- C3: the Retry-Fetch Primitive (both flavors) makes at most 5 total
attempts with a delay of 1000 * 2 ^ attempt ms between consecutive attempts;
a target that fails k < 5 times and then succeeds yields the successful
result after exactly k backoff delays, and a target that always fails raises
the exhaustion error naming the target after exactly 5 attempts, never
silently returning. -/
theorem c3_retry_fetch_primitive :
    (∀ (oracle : Nat → Except String String) (url : String),
      (fetchFile oracle url).attempts ≤ 5) ∧
    (∀ (oracle : Nat → Except String Unit) (url : String),
      (downloadFile oracle url).attempts ≤ 5) ∧
    (∀ (oracle : Nat → Except String String) (url : String) (k : Nat)
      (res : String),
      k + 1 ≤ 5 →
      (∀ i ∈ List.range' 1 k, (oracle i).isOk = false) →
      oracle (k + 1) = Except.ok res →
      fetchFile oracle url =
        ⟨Except.ok res, k + 1, (List.range' 1 k).map fun i => 1000 * 2 ^ i⟩) ∧
    (∀ (oracle : Nat → Except String String) (url : String),
      (∀ i, (oracle i).isOk = false) →
      fetchFile oracle url =
        ⟨Except.error ("Failed to fetch file after 5 attempts: " ++ url), 5,
          [2000, 4000, 8000, 16000]⟩) ∧
    (∀ (oracle : Nat → Except String Unit) (url : String),
      (∀ i, (oracle i).isOk = false) →
      downloadFile oracle url =
        ⟨Except.error ("Failed to download file after 5 attempts: " ++ url), 5,
          [2000, 4000, 8000, 16000]⟩) := by
  refine ⟨?_, ?_, ?_, ?_, ?_⟩
  · intro oracle url
    exact retryGo_attempts_le oracle _ _ 5 1
  · intro oracle url
    exact retryGo_attempts_le oracle _ _ 5 1
  · intro oracle url k res hk hfail hok
    have hk4 : k ≤ 4 := by omega
    interval_cases k
    · simp [fetchFile, retryGo, hok]
    · obtain ⟨e1, he1⟩ := exists_error_of_isOk_false _ (hfail 1 (by decide))
      simp [fetchFile, retryGo, he1, hok, List.range']
    · obtain ⟨e1, he1⟩ := exists_error_of_isOk_false _ (hfail 1 (by decide))
      obtain ⟨e2, he2⟩ := exists_error_of_isOk_false _ (hfail 2 (by decide))
      simp [fetchFile, retryGo, he1, he2, hok, List.range']
    · obtain ⟨e1, he1⟩ := exists_error_of_isOk_false _ (hfail 1 (by decide))
      obtain ⟨e2, he2⟩ := exists_error_of_isOk_false _ (hfail 2 (by decide))
      obtain ⟨e3, he3⟩ := exists_error_of_isOk_false _ (hfail 3 (by decide))
      simp [fetchFile, retryGo, he1, he2, he3, hok, List.range']
    · obtain ⟨e1, he1⟩ := exists_error_of_isOk_false _ (hfail 1 (by decide))
      obtain ⟨e2, he2⟩ := exists_error_of_isOk_false _ (hfail 2 (by decide))
      obtain ⟨e3, he3⟩ := exists_error_of_isOk_false _ (hfail 3 (by decide))
      obtain ⟨e4, he4⟩ := exists_error_of_isOk_false _ (hfail 4 (by decide))
      simp [fetchFile, retryGo, he1, he2, he3, he4, hok, List.range']
  · intro oracle url hfail
    obtain ⟨e1, he1⟩ := exists_error_of_isOk_false _ (hfail 1)
    obtain ⟨e2, he2⟩ := exists_error_of_isOk_false _ (hfail 2)
    obtain ⟨e3, he3⟩ := exists_error_of_isOk_false _ (hfail 3)
    obtain ⟨e4, he4⟩ := exists_error_of_isOk_false _ (hfail 4)
    obtain ⟨e5, he5⟩ := exists_error_of_isOk_false _ (hfail 5)
    simp [fetchFile, retryGo, he1, he2, he3, he4, he5]
  · intro oracle url hfail
    obtain ⟨e1, he1⟩ := exists_error_of_isOk_false _ (hfail 1)
    obtain ⟨e2, he2⟩ := exists_error_of_isOk_false _ (hfail 2)
    obtain ⟨e3, he3⟩ := exists_error_of_isOk_false _ (hfail 3)
    obtain ⟨e4, he4⟩ := exists_error_of_isOk_false _ (hfail 4)
    obtain ⟨e5, he5⟩ := exists_error_of_isOk_false _ (hfail 5)
    simp [downloadFile, retryGo, he1, he2, he3, he4, he5]

/-- Witness for C3 at concrete oracles: a target failing twice then
succeeding, and a target that always fails. -/
theorem c3_retry_fetch_primitive_witness :
    fetchFile (fun i => if i ≤ 2 then Except.error "boom" else Except.ok "data")
        "u" = ⟨Except.ok "data", 3, [2000, 4000]⟩ ∧
    fetchFile (fun _ => Except.error "x") "u" =
      ⟨Except.error "Failed to fetch file after 5 attempts: u", 5,
        [2000, 4000, 8000, 16000]⟩ := by
  constructor
  · have h := c3_retry_fetch_primitive.2.2.1
      (fun i => if i ≤ 2 then Except.error "boom" else Except.ok "data")
      "u" 2 "data" (by decide) (by decide) rfl
    have hr : ((List.range' 1 2).map fun i => 1000 * 2 ^ i) = [2000, 4000] := by
      decide
    rw [hr] at h
    exact h
  · exact c3_retry_fetch_primitive.2.2.2.1 (fun _ => Except.error "x") "u"
      fun _ => rfl

/-- C1 (code bug): the Group Completion Barrier never fires. The membership
markers are stored as the plain strings "queued" / "completed" / "failed",
but checkGroupCompletion destructures the status property from each scanned
marker value, which is undefined on a string, so with every marker of group
"g" reading "completed" the check still returns false, finalizeGroup is never
invoked and no artifact is assembled or persisted. The third part runs the
full per-job execution path on the last job of a group whose other marker
already reads "completed": afterwards both markers read "completed", yet no
group status key was written (no finalization happened). -/
theorem c1_barrier_never_fires_on_completed_markers :
    (((getJobs [(KKey.groupK "g" "j1", KVal.str "completed"),
          (KKey.groupK "g" "j2", KVal.str "completed")]
        (matchesGroupPat "g")).all
      fun v => v == KVal.str "completed") = true ∧
    checkGroupCompletion
      [(KKey.groupK "g" "j1", KVal.str "completed"),
        (KKey.groupK "g" "j2", KVal.str "completed")] "g" = false) ∧
    (let j2 : Job :=
      { id := "j2", file := ⟨"b.ts", "u"⟩, groupId := "g",
        status := "queued", result := none, owner := "o", repo := "r",
        createdAt := 0, updatedAt := 0 }
    let s1 : KV :=
      [(KKey.jobK "j2", KVal.job j2),
        (KKey.groupK "g" "j1", KVal.str "completed"),
        (KKey.groupK "g" "j2", KVal.str "queued")]
    let after := processJob s1 j2 (fun _ => Except.ok "res") "meta" 100
    kvGet after (KKey.groupK "g" "j1") = some (KVal.str "completed") ∧
    kvGet after (KKey.groupK "g" "j2") = some (KVal.str "completed") ∧
    kvGet after (KKey.groupK "g" "status") = none) := by
  decide

theorem fromEntries_append_last {α : Type} (l : List (String × α)) (k : String)
    (v : α) : fromEntries (l ++ [(k, v)]) k = some v := by
  simp [fromEntries, List.foldl_append]

/-- C10: for a group whose jobs include a file whose path is the literal
string "metadata", the assembled artifact omits that job's result — the
reserved repository-metadata entry is appended after all job entries and,
under last-wins map construction, overwrites any job entry with that key. -/
theorem c10_metadata_entry_overwrites_job_entry (jobs : List Job)
    (metadataStr : String) (j : Job) (hj : j ∈ jobs)
    (_hpath : j.file.path = "metadata") :
    assembleDocument jobs metadataStr "metadata" = some (some metadataStr) ∧
    (j.result ≠ some metadataStr →
      assembleDocument jobs metadataStr "metadata" ≠ some j.result) := by
  cases jobs with
  | nil => simp at hj
  | cons a l =>
    have h1 : assembleDocument (a :: l) metadataStr "metadata" =
        some (some metadataStr) := by
      show fromEntries _ "metadata" = some (some metadataStr)
      exact fromEntries_append_last _ _ _
    refine ⟨h1, fun hne h2 => ?_⟩
    rw [h1] at h2
    exact hne (Option.some_injective _ h2).symm

/-- Witness for C10 at a concrete one-job group whose file path is
"metadata". -/
theorem c10_metadata_entry_overwrites_job_entry_witness :
    assembleDocument
        [{ id := "jid", file := ⟨"metadata", "u"⟩, groupId := "g",
            status := "completed", result := some "JOBRESULT", owner := "o",
            repo := "r", createdAt := 0, updatedAt := 0 }] "META" "metadata" =
      some (some "META") ∧
    assembleDocument
        [{ id := "jid", file := ⟨"metadata", "u"⟩, groupId := "g",
            status := "completed", result := some "JOBRESULT", owner := "o",
            repo := "r", createdAt := 0, updatedAt := 0 }] "META" "metadata" ≠
      some (some "JOBRESULT") := by
  have h := c10_metadata_entry_overwrites_job_entry
    [{ id := "jid", file := ⟨"metadata", "u"⟩, groupId := "g",
        status := "completed", result := some "JOBRESULT", owner := "o",
        repo := "r", createdAt := 0, updatedAt := 0 }] "META"
    { id := "jid", file := ⟨"metadata", "u"⟩, groupId := "g",
        status := "completed", result := some "JOBRESULT", owner := "o",
        repo := "r", createdAt := 0, updatedAt := 0 }
    (List.mem_singleton.mpr rfl) rfl
  exact ⟨h.1, h.2 (by decide)⟩

theorem enqueueStep_noop (owner repo : String) (latestSha : String → String)
    (groupId : String) (newId : String → String) (now : Nat)
    (acc : List Job × KV) (f : FileInfo)
    (h : kvGet acc.2 (KKey.metaK (owner ++ "/" ++ repo) f.path) =
      some (KVal.commit (latestSha f.path))) :
    enqueueStep owner repo latestSha groupId newId now acc f = acc := by
  simp [enqueueStep, getFileMetadata, h, shaOf]

/-- C4: re-running the Enqueuer when every processable file's latest
fingerprint equals the one already stored creates zero new jobs and leaves
the Job Store byte-for-byte unchanged (so in particular zero new membership
markers): an idempotent no-op. -/
theorem c4_enqueue_idempotent_no_op (s : KV) (owner repo : String)
    (files : List FileInfo) (latestSha : String → String) (groupId : String)
    (newId : String → String) (now : Nat)
    (h : ∀ f ∈ files, getFileType f.path ≠ "Media" →
      kvGet s (KKey.metaK (owner ++ "/" ++ repo) f.path) =
        some (KVal.commit (latestSha f.path))) :
    (queueGroupedJobs s owner repo files latestSha groupId newId now).jobs = []
    ∧ (queueGroupedJobs s owner repo files latestSha groupId newId now).store
      = s := by
  have key : ∀ l : List FileInfo,
      (∀ f ∈ l, kvGet s (KKey.metaK (owner ++ "/" ++ repo) f.path) =
        some (KVal.commit (latestSha f.path))) →
      l.foldl (enqueueStep owner repo latestSha groupId newId now) ([], s) =
        (([] : List Job), s) := by
    intro l
    induction l with
    | nil => intro _; rfl
    | cons f t ih =>
      intro hall
      rw [List.foldl_cons,
        enqueueStep_noop owner repo latestSha groupId newId now ([], s) f
          (hall f (List.mem_cons_self f t))]
      exact ih fun f2 hf2 => hall f2 (List.mem_cons_of_mem f hf2)
  have hfilter : ∀ f ∈ files.filter (fun f => getFileType f.path ≠ "Media"),
      kvGet s (KKey.metaK (owner ++ "/" ++ repo) f.path) =
        some (KVal.commit (latestSha f.path)) := by
    intro f hf
    rw [List.mem_filter] at hf
    exact h f hf.1 (of_decide_eq_true hf.2)
  have hq := key _ hfilter
  simp only [ne_eq, decide_not] at hq
  refine ⟨?_, ?_⟩ <;> simp [queueGroupedJobs, hq]

/-- Witness for C4: a one-file repository whose stored fingerprint already
matches the latest one; the enqueue creates nothing and the store is
unchanged. -/
theorem c4_enqueue_idempotent_no_op_witness :
    (queueGroupedJobs [(KKey.metaK "o/r" "a.js", KVal.commit "s1")] "o" "r"
      [⟨"a.js", "u"⟩] (fun _ => "s1") "g2" (fun p => "id-" ++ p) 7).jobs = [] ∧
    (queueGroupedJobs [(KKey.metaK "o/r" "a.js", KVal.commit "s1")] "o" "r"
      [⟨"a.js", "u"⟩] (fun _ => "s1") "g2" (fun p => "id-" ++ p) 7).store =
      [(KKey.metaK "o/r" "a.js", KVal.commit "s1")] :=
  c4_enqueue_idempotent_no_op
    [(KKey.metaK "o/r" "a.js", KVal.commit "s1")] "o" "r"
    [⟨"a.js", "u"⟩] (fun _ => "s1") "g2" (fun p => "id-" ++ p) 7 (by decide)

/-- C6: on a repository with exactly the files [a.js, b.png, dir/c.json] and
no stored fingerprints, the Enqueuer creates exactly 2 jobs, for a.js and
dir/c.json, with their group membership markers; b.png is classified Media
(the non-processable class) and is the only excluded file, so no record of it
is written. -/
theorem c6_enqueuer_excludes_only_media :
    (let r := queueGroupedJobs [] "o" "r"
        [⟨"a.js", "u1"⟩, ⟨"b.png", "u2"⟩, ⟨"dir/c.json", "u3"⟩]
        (fun _ => "sha1") "g1" (fun p => "id-" ++ p) 0
    r.jobs.map (fun j => j.file.path) = ["a.js", "dir/c.json"] ∧
    r.jobs.length = 2 ∧
    (r.jobs.map fun j => j.status) = ["queued", "queued"] ∧
    kvGet r.store (KKey.groupK "g1" "id-a.js") = some (KVal.str "queued") ∧
    kvGet r.store (KKey.groupK "g1" "id-dir/c.json") =
      some (KVal.str "queued") ∧
    kvGet r.store (KKey.jobK "id-b.png") = none ∧
    kvGet r.store (KKey.groupK "g1" "id-b.png") = none) ∧
    getFileType "b.png" = "Media" ∧
    getFileType "a.js" ≠ "Media" ∧ getFileType "dir/c.json" ≠ "Media" := by
  decide

/-- Well-formedness of one store entry: a job record is stored under the job
key of its own id (this is the only way the system ever writes job records,
via queueJob and saveJobWithStatus). -/
def wfEntry : KKey × KVal → Bool
  | (k, KVal.job jb) => k == KKey.jobK jb.id
  | _ => true

/-- Whether a value is a plain marker string. -/
def isStr : KVal → Bool
  | KVal.str _ => true
  | _ => false

theorem wf_key (e : KKey × KVal) (h : wfEntry e = true) (jb : Job)
    (h2 : e.2 = KVal.job jb) : e.1 = KKey.jobK jb.id := by
  obtain ⟨k, v⟩ := e
  simp only at h2
  subst h2
  simpa [wfEntry] using h

theorem nodup_val_eq (s : KV) (h_nd : (kvKeys s).Nodup) (k : KKey)
    (a b : KVal) (ha : (k, a) ∈ s) (hb : (k, b) ∈ s) : a = b := by
  induction s with
  | nil => simp at ha
  | cons e t ih =>
    rw [kvKeys_cons, List.nodup_cons] at h_nd
    rcases List.mem_cons.mp ha with ha1 | ha1 <;>
      rcases List.mem_cons.mp hb with hb1 | hb1
    · rw [← ha1] at hb1
      injection hb1 with hb2 hb3
      exact hb3.symm
    · exfalso
      apply h_nd.1
      rw [← ha1]
      exact mem_kvKeys_of_mem t (k, b) hb1
    · exfalso
      apply h_nd.1
      rw [← hb1]
      exact mem_kvKeys_of_mem t (k, a) ha1
    · exact ih h_nd.2 ha1 hb1

theorem mem_getJobs_of_mem (s : KV) (pat : KKey → Bool) (e : KKey × KVal)
    (he : e ∈ s) (hpat : pat e.1 = true) : e.2 ∈ getJobs s pat := by
  unfold getJobs
  rw [List.mem_insertionSort]
  exact List.mem_map_of_mem _ (List.mem_filter.mpr ⟨he, hpat⟩)

theorem exists_entry_of_mem_getJobs (s : KV) (pat : KKey → Bool) (v : KVal)
    (h : v ∈ getJobs s pat) : ∃ e ∈ s, pat e.1 = true ∧ e.2 = v := by
  unfold getJobs at h
  rw [List.mem_insertionSort] at h
  obtain ⟨e, he, hev⟩ := List.mem_map.mp h
  exact ⟨e, (List.mem_filter.mp he).1, (List.mem_filter.mp he).2, hev⟩

theorem checkGroupCompletion_false_of_str (s : KV) (g : String) (k : KKey)
    (str2 : String) (hmem : (k, KVal.str str2) ∈ s)
    (hpat : matchesGroupPat g k = true) :
    checkGroupCompletion s g = false := by
  have hv := mem_getJobs_of_mem s (matchesGroupPat g) (k, KVal.str str2)
    hmem hpat
  unfold checkGroupCompletion
  rw [← Bool.not_eq_true, List.all_eq_true]
  intro hall
  have h2 := hall _ hv
  simp [statusOf] at h2

/-- In this system processJob never reaches finalizeGroup: the membership
marker it writes just before the barrier check is a plain string, which makes
checkGroupCompletion return false, so on generation success the store after
processJob is exactly the three writes (in-progress record, completed record,
completed marker). -/
theorem processJob_success_eq (s : KV) (j : Job)
    (gen : FileInfo → Except String String) (m : String) (now : Nat)
    (res : String) (hgen : gen j.file = Except.ok res) :
    processJob s j gen m now =
      kvSet (kvSet (kvSet s (KKey.jobK j.id)
          (KVal.job { j with status := "in-progress", updatedAt := now }))
        (KKey.jobK j.id)
          (KVal.job { j with status := "completed", result := some res, updatedAt := now }))
        (KKey.groupK j.groupId j.id) (KVal.str "completed") := by
  have hfalse := checkGroupCompletion_false_of_str
    (kvSet (kvSet (kvSet s (KKey.jobK j.id)
        (KVal.job { j with status := "in-progress", updatedAt := now }))
      (KKey.jobK j.id)
        (KVal.job { j with status := "completed", result := some res, updatedAt := now }))
      (KKey.groupK j.groupId j.id) (KVal.str "completed"))
    j.groupId (KKey.groupK j.groupId j.id) "completed"
    (mem_kvSet_self _ _ _) (by simp [matchesGroupPat])
  simp only [processJob, hgen, saveJobWithStatus, hfalse, Bool.false_eq_true,
    if_false]

theorem processJob_frame (s : KV) (j : Job)
    (gen : FileInfo → Except String String) (m : String) (now : Nat)
    (k : KKey) (h1 : k ≠ KKey.jobK j.id)
    (h2 : k ≠ KKey.groupK j.groupId j.id) :
    kvGet (processJob s j gen m now) k = kvGet s k := by
  cases hgen : gen j.file with
  | error e =>
    simp only [processJob, hgen, saveJobWithStatus, handleJobFailure]
    rw [kvGet_kvSet_ne _ _ _ _ h2, kvGet_kvSet_ne _ _ _ _ h1,
      kvGet_kvSet_ne _ _ _ _ h1]
  | ok res =>
    rw [processJob_success_eq s j gen m now res hgen]
    rw [kvGet_kvSet_ne _ _ _ _ h2, kvGet_kvSet_ne _ _ _ _ h1,
      kvGet_kvSet_ne _ _ _ _ h1]

theorem foldl_processJobKVal_frame (batch : List KVal) (s : KV)
    (gen : FileInfo → Except String String) (m : String) (now : Nat)
    (k : KKey)
    (h : ∀ v ∈ batch, ∀ jb : Job, v = KVal.job jb →
      k ≠ KKey.jobK jb.id ∧ k ≠ KKey.groupK jb.groupId jb.id) :
    kvGet (batch.foldl (fun st v => processJobKVal st v gen m now) s) k =
      kvGet s k := by
  induction batch generalizing s with
  | nil => rfl
  | cons v t ih =>
    rw [List.foldl_cons]
    rw [ih _ fun v2 hv2 => h v2 (List.mem_cons_of_mem v hv2)]
    cases v with
    | job jb =>
      obtain ⟨ha, hb⟩ := h (KVal.job jb) (List.mem_cons_self _ _) jb rfl
      exact processJob_frame s jb gen m now k ha hb
    | str s2 => rfl
    | commit c => rfl

/-- Distinct scanned job values carry distinct job ids (used for frame
reasoning between batch members). -/
def idNe (a b : KVal) : Prop :=
  ∀ ja jb : Job, a = KVal.job ja → b = KVal.job jb → ja.id ≠ jb.id

theorem idNe_symm : Symmetric idNe :=
  fun _ _ h ja jb ha hb => Ne.symm (h jb ja hb ha)

theorem jobsScan_pairwise_idNe (s : KV)
    (h_wf : ∀ e ∈ s, wfEntry e = true) (h_nd : (kvKeys s).Nodup) :
    (getJobs s matchesJobPat).Pairwise idNe := by
  have hkeys : s.Pairwise fun e1 e2 => e1.1 ≠ e2.1 := by
    have h2 : (s.map (·.1)).Pairwise (· ≠ ·) := h_nd
    exact List.pairwise_map.mp h2
  have hfil : (s.filter fun e => matchesJobPat e.1).Pairwise
      fun e1 e2 => idNe e1.2 e2.2 := by
    have hsub := List.filter_sublist (l := s) (p := fun e => matchesJobPat e.1)
    have hp := hkeys.sublist hsub
    refine hp.imp_of_mem ?_
    intro e1 e2 he1 he2 hne ja jb ha hb hid
    have k1 := wf_key e1 (h_wf e1 (List.mem_of_mem_filter he1)) ja ha
    have k2 := wf_key e2 (h_wf e2 (List.mem_of_mem_filter he2)) jb hb
    apply hne
    rw [k1, k2, hid]
  have hmap : ((s.filter fun e => matchesJobPat e.1).map (·.2)).Pairwise idNe :=
    List.pairwise_map.mpr hfil
  unfold getJobs
  exact ((List.perm_insertionSort uaLe _).pairwise_iff
    fun h => idNe_symm h).mpr hmap

theorem scheduledBatch_pairwise_idNe (s : KV) (now : Nat)
    (h_wf : ∀ e ∈ s, wfEntry e = true) (h_nd : (kvKeys s).Nodup) :
    (scheduledBatch s now).Pairwise idNe := by
  have hBase := jobsScan_pairwise_idNe s h_wf h_nd
  unfold scheduledBatch
  split
  · unfold staleOf filterForStaleJobs
    exact List.Pairwise.sublist
      ((List.filter_sublist _).trans (List.filter_sublist _)) hBase
  · exact List.Pairwise.sublist (List.filter_sublist _) hBase

theorem getJobs_sorted (s : KV) (pat : KKey → Bool) :
    List.Sorted uaLe (getJobs s pat) :=
  List.sorted_insertionSort uaLe _

theorem scheduledBatch_sorted (s : KV) (now : Nat) :
    List.Sorted uaLe (scheduledBatch s now) := by
  unfold scheduledBatch
  split
  · unfold staleOf filterForStaleJobs
    exact List.Pairwise.sublist
      ((List.filter_sublist _).trans (List.filter_sublist _))
      (getJobs_sorted s matchesJobPat)
  · exact List.Pairwise.sublist (List.filter_sublist _)
      (getJobs_sorted s matchesJobPat)

theorem pairwise_take_drop {α : Type} {R : α → α → Prop} {l : List α}
    (h : l.Pairwise R) (n : Nat) :
    ∀ x ∈ l.take n, ∀ y ∈ l.drop n, R x y := by
  rw [← List.take_append_drop n l, List.pairwise_append] at h
  exact h.2.2

/-- The scheduler pass is processJobs applied to the scheduled batch (when
neither stale nor queued jobs exist the batch is empty and both sides are the
unchanged store). -/
theorem schedulerPass_eq_batch (s : KV) (gen : FileInfo → Except String String)
    (m : String) (now : Nat) :
    schedulerPass s gen m now = processJobs s (scheduledBatch s now) 50 gen m now := by
  unfold schedulerPass scheduledBatch
  split
  · rfl
  · split
    · rfl
    · rename_i hq
      have hnil : ((getJobs s matchesJobPat).filter fun v =>
          statusOf v == some "queued") = [] := by
        rw [← List.length_eq_zero]
        omega
      rw [hnil]
      rfl


/-- The keys of the store that match the group's marker scan pattern. -/
def groupKeys (g : String) (s : KV) : List KKey :=
  (kvKeys s).filter fun k => matchesGroupPat g k

theorem groupKeys_kvSet_of_mem (s : KV) (g : String) (k : KKey) (v : KVal)
    (h : k ∈ kvKeys s) : groupKeys g (kvSet s k v) = groupKeys g s := by
  unfold groupKeys
  rw [kvKeys_kvSet_of_mem s k v h]

theorem groupKeys_kvSet_of_not_match (s : KV) (g : String) (k : KKey)
    (v : KVal) (h : matchesGroupPat g k = false) :
    groupKeys g (kvSet s k v) = groupKeys g s := by
  by_cases hm : k ∈ kvKeys s
  · exact groupKeys_kvSet_of_mem s g k v hm
  · unfold groupKeys
    rw [kvKeys_kvSet_of_not_mem s k v hm, List.filter_append]
    simp [h]

/-- C7: when the content-generation step throws, per-job execution writes the
job record back with status failed (and a refreshed updatedAt), sets that
job's group membership marker to the string "failed", and absorbs the error:
processJob is a total function into the store, mirroring the catch-all at the
job-execution boundary, so nothing propagates to the Scheduler/Worker. -/
theorem c7_generation_failure_recorded_not_thrown (s : KV) (j : Job)
    (gen : FileInfo → Except String String) (metadataStr : String)
    (now : Nat) (e : String) (hgen : gen j.file = Except.error e) :
    kvGet (processJob s j gen metadataStr now) (KKey.jobK j.id) =
      some (KVal.job { j with status := "failed", updatedAt := now }) ∧
    kvGet (processJob s j gen metadataStr now) (KKey.groupK j.groupId j.id) =
      some (KVal.str "failed") := by
  simp only [processJob, hgen, saveJobWithStatus, handleJobFailure]
  constructor
  · rw [kvGet_kvSet_ne _ _ _ _ (by simp)]
    exact kvGet_kvSet_self _ _ _
  · exact kvGet_kvSet_self _ _ _

/-- Witness for C7 at a concrete job whose generation step throws. -/
theorem c7_generation_failure_recorded_not_thrown_witness :
    kvGet (processJob []
        { id := "w", file := ⟨"w.js", "u"⟩, groupId := "gw", status := "queued", result := none, owner := "o", repo := "r", createdAt := 0, updatedAt := 0 }
        (fun _ => Except.error "boom") "m" 5) (KKey.jobK "w") =
      some (KVal.job
        { id := "w", file := ⟨"w.js", "u"⟩, groupId := "gw", status := "failed", result := none, owner := "o", repo := "r", createdAt := 0, updatedAt := 5 }) ∧
    kvGet (processJob []
        { id := "w", file := ⟨"w.js", "u"⟩, groupId := "gw", status := "queued", result := none, owner := "o", repo := "r", createdAt := 0, updatedAt := 0 }
        (fun _ => Except.error "boom") "m" 5) (KKey.groupK "gw" "w") =
      some (KVal.str "failed") :=
  c7_generation_failure_recorded_not_thrown []
    { id := "w", file := ⟨"w.js", "u"⟩, groupId := "gw", status := "queued", result := none, owner := "o", repo := "r", createdAt := 0, updatedAt := 0 }
    (fun _ => Except.error "boom") "m" 5 "boom" rfl

/-- C2: if any in-progress job is stale (updatedAt older than the 6-minute
threshold), the scheduled batch is exactly the stale list — every selected
value is a stale in-progress record and the pass leaves the record of every
queued job untouched — and a queued job can be scheduled only in a pass where
no stale in-progress job exists. -/
theorem c2_stale_priority (s : KV) (now : Nat)
    (gen : FileInfo → Except String String) (m : String)
    (h_wf : ∀ e ∈ s, wfEntry e = true) (h_nd : (kvKeys s).Nodup) :
    (staleOf s now ≠ [] → scheduledBatch s now = staleOf s now) ∧
    (∀ v ∈ staleOf s now, statusOf v = some "in-progress" ∧
      ∀ jb : Job, v = KVal.job jb → now - jb.updatedAt > staleThreshold) ∧
    (∀ v ∈ scheduledBatch s now, statusOf v = some "queued" →
      staleOf s now = []) ∧
    (staleOf s now ≠ [] → ∀ (id : String) (q : Job),
      kvGet s (KKey.jobK id) = some (KVal.job q) → q.status = "queued" →
      kvGet (schedulerPass s gen m now) (KKey.jobK id) =
        kvGet s (KKey.jobK id)) := by
  have part1 : staleOf s now ≠ [] → scheduledBatch s now = staleOf s now := by
    intro h
    unfold scheduledBatch
    rw [if_pos (List.length_pos.mpr h)]
  have part2 : ∀ v ∈ staleOf s now, statusOf v = some "in-progress" ∧
      ∀ jb : Job, v = KVal.job jb → now - jb.updatedAt > staleThreshold := by
    intro v hv
    unfold staleOf filterForStaleJobs at hv
    have h1 := List.mem_filter.mp hv
    have h2 := List.mem_filter.mp h1.1
    refine ⟨by simpa using h2.2, ?_⟩
    intro jb hjb
    have h3 := h1.2
    rw [hjb] at h3
    exact of_decide_eq_true h3
  refine ⟨part1, part2, ?_, ?_⟩
  · intro v hv hq
    by_contra hne
    rw [part1 hne] at hv
    have hst := (part2 v hv).1
    rw [hq] at hst
    have := Option.some.inj hst
    exact absurd this (by decide)
  · intro hne id q hq hstat
    rw [schedulerPass_eq_batch, processJobs]
    apply foldl_processJobKVal_frame
    intro v hv jb hjb
    have hvb : v ∈ scheduledBatch s now := List.mem_of_mem_take hv
    refine ⟨?_, by simp⟩
    intro hkey
    injection hkey with hid
    rw [part1 hne] at hvb
    have hscan : v ∈ getJobs s matchesJobPat := by
      unfold staleOf filterForStaleJobs at hvb
      exact List.mem_of_mem_filter (List.mem_of_mem_filter hvb)
    obtain ⟨e2, he2, hpat2, hev2⟩ := exists_entry_of_mem_getJobs _ _ _ hscan
    have hk2 : e2.1 = KKey.jobK jb.id :=
      wf_key e2 (h_wf e2 he2) jb (by rw [hev2, hjb])
    have hjbmem : (KKey.jobK jb.id, KVal.job jb) ∈ s := by
      have he2eq : e2 = (KKey.jobK jb.id, KVal.job jb) := by
        obtain ⟨k2, v2⟩ := e2
        simp only at hk2 hev2
        rw [hk2, hev2, hjb]
      rw [← he2eq]
      exact he2
    have hqmem : (KKey.jobK jb.id, KVal.job q) ∈ s := by
      have := mem_of_kvGet s _ _ hq
      rwa [hid] at this
    have hvals := nodup_val_eq s h_nd (KKey.jobK jb.id) (KVal.job q)
      (KVal.job jb) hqmem hjbmem
    injection hvals with hqjb
    have hst := (part2 v hvb).1
    rw [hjb] at hst
    have hjbst : jb.status = "in-progress" := Option.some.inj hst
    rw [← hqjb] at hjbst
    rw [hstat] at hjbst
    exact absurd hjbst (by decide)

/-- Witness for C2: a store with one stale in-progress job and one queued
job; the pass reclaims the stale job and the queued record is unchanged. -/
theorem c2_stale_priority_witness :
    (let sW : KV :=
      [(KKey.jobK "a", KVal.job { id := "a", file := ⟨"a.js", "u"⟩, groupId := "g", status := "in-progress", result := none, owner := "o", repo := "r", createdAt := 0, updatedAt := 0 }),
        (KKey.jobK "b", KVal.job { id := "b", file := ⟨"b.ts", "u"⟩, groupId := "g", status := "queued", result := none, owner := "o", repo := "r", createdAt := 0, updatedAt := 1000 })]
    kvGet (schedulerPass sW (fun _ => Except.ok "res") "m" 1000000)
        (KKey.jobK "b") =
      kvGet sW (KKey.jobK "b")) := by
  intro sW
  exact (c2_stale_priority sW 1000000 (fun _ => Except.ok "res") "m"
      (by decide) (by decide)).2.2.2 (by decide) "b"
    { id := "b", file := ⟨"b.ts", "u"⟩, groupId := "g", status := "queued", result := none, owner := "o", repo := "r", createdAt := 0, updatedAt := 1000 }
    (by decide) rfl


/-- C8: a scheduling pass starts at most 50 job executions (the slice of the
batch), and every eligible job beyond the first 50 has its Job Store record
left completely unmodified by the pass. -/
theorem c8_concurrency_cap (s : KV) (now : Nat)
    (gen : FileInfo → Except String String) (m : String)
    (h_wf : ∀ e ∈ s, wfEntry e = true) (h_nd : (kvKeys s).Nodup) :
    ((scheduledBatch s now).take
      (min (scheduledBatch s now).length 50)).length ≤ 50 ∧
    (∀ v ∈ (scheduledBatch s now).drop
        (min (scheduledBatch s now).length 50),
      ∀ jb : Job, v = KVal.job jb →
      kvGet (schedulerPass s gen m now) (KKey.jobK jb.id) =
        kvGet s (KKey.jobK jb.id)) := by
  constructor
  · rw [List.length_take]
    omega
  · intro v hv jb hjb
    rw [schedulerPass_eq_batch, processJobs]
    apply foldl_processJobKVal_frame
    intro v2 hv2 jb2 hjb2
    have hpw := scheduledBatch_pairwise_idNe s now h_wf h_nd
    have hrel := pairwise_take_drop hpw
      (min (scheduledBatch s now).length 50) v2 hv2 v hv
    have hne := hrel jb2 jb hjb2 hjb
    refine ⟨?_, by simp⟩
    intro hkey
    injection hkey with h3
    exact hne h3.symm

/-- Witness for C8 at a concrete two-job store (the cap bound applied with
the well-formedness hypotheses discharged). -/
theorem c8_concurrency_cap_witness :
    (let sW : KV :=
      [(KKey.jobK "a", KVal.job { id := "a", file := ⟨"a.js", "u"⟩, groupId := "g", status := "queued", result := none, owner := "o", repo := "r", createdAt := 0, updatedAt := 0 }),
        (KKey.jobK "b", KVal.job { id := "b", file := ⟨"b.ts", "u"⟩, groupId := "g", status := "queued", result := none, owner := "o", repo := "r", createdAt := 0, updatedAt := 1000 })]
    ((scheduledBatch sW 2000).take
      (min (scheduledBatch sW 2000).length 50)).length ≤ 50) := by
  intro sW
  exact (c8_concurrency_cap sW 2000 (fun _ => Except.ok "res") "m"
    (by decide) (by decide)).1

/-- C9: the job listing sorts ascending by updatedAt before the batch is
sliced: the batch is sorted, its first min(length, 50) elements are what the
pass executes, and each selected element's updatedAt is no larger than that
of any eligible job beyond the cap — the selection is exactly the
oldest-first min(length, 50) jobs. -/
theorem c9_oldest_first_selection (s : KV) (now : Nat) :
    List.Sorted uaLe (getJobs s matchesJobPat) ∧
    List.Sorted uaLe (scheduledBatch s now) ∧
    ((scheduledBatch s now).take
        (min (scheduledBatch s now).length 50)).length =
      min (scheduledBatch s now).length 50 ∧
    (((scheduledBatch s now).take (min (scheduledBatch s now).length 50)).all
      fun x => ((scheduledBatch s now).drop
        (min (scheduledBatch s now).length 50)).all fun y =>
          decide (uaKey x ≤ uaKey y)) = true ∧
    ∀ (gen : FileInfo → Except String String) (m : String),
      schedulerPass s gen m now =
        processJobs s (scheduledBatch s now) 50 gen m now := by
  refine ⟨getJobs_sorted s matchesJobPat, scheduledBatch_sorted s now,
    ?_, ?_, ?_⟩
  · rw [List.length_take]
    omega
  · simp only [List.all_eq_true, decide_eq_true_eq]
    intro x hx y hy
    exact pairwise_take_drop (scheduledBatch_sorted s now) _ x hx y hy
  · intro gen m
    exact schedulerPass_eq_batch s gen m now

/-- C5: once the Enqueuer has written a job's membership marker, the group
marker key space is fixed: per-job execution and failure handling only
overwrite the already-present marker of the processed job (and the barrier
check inside processJob always fails, so it never finalizes), and a direct
group finalization throws a TypeError — the scanned marker values are plain
strings — before writing anything, so no operation of the system adds a key
matching the group's marker pattern. -/
theorem c5_marker_key_space_fixed (s : KV) (g : String) (j : Job)
    (gen : FileInfo → Except String String) (m : String) (now : Nat)
    (h1 : KKey.groupK j.groupId j.id ∈ kvKeys s)
    (h2 : ∀ e ∈ s, matchesGroupPat g e.1 = true → isStr e.2 = true) :
    groupKeys g (processJob s j gen m now) = groupKeys g s ∧
    groupKeys g (handleJobFailure s j now) = groupKeys g s ∧
    ∃ err, finalizeGroup s g m = Except.error err := by
  have hjobPat : ∀ id2 : String, matchesGroupPat g (KKey.jobK id2) = false := by
    intro id2
    simp [matchesGroupPat]
  have hProc : groupKeys g (processJob s j gen m now) = groupKeys g s := by
    cases hgen : gen j.file with
    | error e =>
      simp only [processJob, hgen, saveJobWithStatus, handleJobFailure]
      rw [groupKeys_kvSet_of_mem _ g _ _
          (mem_kvKeys_kvSet_of_mem _ _ _ _
            (mem_kvKeys_kvSet_of_mem _ _ _ _ h1)),
        groupKeys_kvSet_of_not_match _ g _ _ (hjobPat j.id),
        groupKeys_kvSet_of_not_match _ g _ _ (hjobPat j.id)]
    | ok res =>
      rw [processJob_success_eq s j gen m now res hgen]
      rw [groupKeys_kvSet_of_mem _ g _ _
          (mem_kvKeys_kvSet_of_mem _ _ _ _
            (mem_kvKeys_kvSet_of_mem _ _ _ _ h1)),
        groupKeys_kvSet_of_not_match _ g _ _ (hjobPat j.id),
        groupKeys_kvSet_of_not_match _ g _ _ (hjobPat j.id)]
  have hHandle : groupKeys g (handleJobFailure s j now) = groupKeys g s := by
    simp only [handleJobFailure, saveJobWithStatus]
    rw [groupKeys_kvSet_of_mem _ g _ _
        (mem_kvKeys_kvSet_of_mem _ _ _ _ h1),
      groupKeys_kvSet_of_not_match _ g _ _ (hjobPat j.id)]
  have hFin : ∃ err, finalizeGroup s g m = Except.error err := by
    rcases hm : getJobs s (matchesGroupPat g) with _ | ⟨v0, t⟩
    · exact ⟨_, by unfold finalizeGroup; rw [hm]⟩
    · obtain ⟨e, he, hpat, hev⟩ := exists_entry_of_mem_getJobs s _ v0
        (by rw [hm]; exact List.mem_cons_self v0 t)
      have hstr := h2 e he hpat
      rw [hev] at hstr
      cases v0 with
      | str s2 => exact ⟨_, by unfold finalizeGroup; rw [hm]⟩
      | job jb => simp [isStr] at hstr
      | commit c => exact ⟨_, by unfold finalizeGroup; rw [hm]⟩
  exact ⟨hProc, hHandle, hFin⟩

/-- Witness for C5 at a concrete one-job group: the marker key space is
unchanged by execution and failure handling, and finalization throws. -/
theorem c5_marker_key_space_fixed_witness :
    (let jW : Job := { id := "w", file := ⟨"w.js", "u"⟩, groupId := "gw", status := "queued", result := none, owner := "o", repo := "r", createdAt := 0, updatedAt := 0 }
    let sW : KV := [(KKey.jobK "w", KVal.job jW),
      (KKey.groupK "gw" "w", KVal.str "queued")]
    groupKeys "gw" (processJob sW jW (fun _ => Except.ok "res") "m" 9) =
      groupKeys "gw" sW ∧
    groupKeys "gw" (handleJobFailure sW jW 9) = groupKeys "gw" sW ∧
    ∃ err, finalizeGroup sW "gw" "m" = Except.error err) := by
  intro jW sW
  exact c5_marker_key_space_fixed sW "gw" jW (fun _ => Except.ok "res") "m" 9
    (by decide) (by decide)


end GreptileClone
